import Mathlib

/-
Verification of the inventory management system (src/inventory_system.py).

The Python class `InventoryManager` keeps a dict `stock_data` from item name
to integer quantity, a list `logs` of mutation descriptions, and a
`default_file` path.  We embed it shallowly:

  * `stock_data` becomes an association list `List (String × Int)`; Python
    dicts preserve insertion order, updating an existing key keeps its
    position and inserting a new key appends at the end, which `dset`
    mirrors.
  * Python integers are unbounded, so quantities are `Int`.
  * The dynamic `isinstance` checks of `add_item`/`remove_item` are modelled
    by the `PyVal` type: a value is a string, an int, or something else.
  * Console output (`print`) is returned as a list of `Msg` values, one per
    print call, abstracting the exact f-string text; the timestamp prefix
    produced by `datetime.now()` in log entries is abstracted away (it is
    wall-clock nondeterminism and no claim inspects it).
  * The file system is an association list from path to `FileContent`:
    a parsed JSON object (`object`), a file whose contents are not valid
    JSON (`malformed`, json.JSONDecodeError), or a file whose read raises
    IOError (`unreadable`).  `sys.exit(1)` in `load_data` is modelled by the
    `LoadResult.fatal` constructor carrying the exit code.
  * An IOError while writing in `save_data` is modelled by an explicit
    boolean oracle argument `ioFail`.
-/

namespace InventorySystem

/-- A dynamically typed Python value, as far as the `isinstance` checks of
`add_item` and `remove_item` can distinguish them: a `str`, an `int`, or a
value of any other type. -/
inductive PyVal where
  | vstr (s : String)
  | vint (n : Int)
  | vother
deriving DecidableEq

/-- One line printed to the console.  Each constructor corresponds to one
`print(...)` call in the Python source, abstracting the exact text. -/
inductive Msg where
  | errItemName (item : PyVal)
  | errQty (qty : PyVal)
  | errNotFound (item : String)
  | errInsufficient (item : String) (cur need : Int)
  | logLine (entry : String)
  | infoOutOfStock (item : String)
  | loadOk (file : String)
  | warnFileNotFound (file : String)
  | errDecode (file : String)
  | errLoadIo (file : String)
  | saveOk (file : String)
  | errSaveIo (file : String)
  | reportHeader
  | reportEmpty
  | reportLine (item : String) (qty : Int)
  | reportFooter
deriving DecidableEq

/-- The state of the Python `InventoryManager` object: the `stock_data`
dict (as an insertion-ordered association list), the configured
`default_file`, and the in-memory `logs` list. -/
structure InventoryManager where
  stock_data : List (String × Int)
  default_file : String
  logs : List String
deriving DecidableEq

/-- Contents of a file on disk, as seen through `open` + `json.load`:
either a JSON object with string keys and integer values, or data that
fails JSON decoding, or a file whose read raises IOError. -/
inductive FileContent where
  | object (entries : List (String × Int))
  | malformed
  | unreadable
deriving DecidableEq

/-- The file system: a mapping from path to file contents. -/
abbrev FS := List (String × FileContent)

/-- Result of `load_data`: either the updated manager (normal return) or
process termination via `sys.exit` with the given exit code. -/
inductive LoadResult where
  | ok (m : InventoryManager)
  | fatal (code : Nat)
deriving DecidableEq

/-- Python `d.get(k)` / `d[k]` lookup on an association list: the value of
the first entry with the given key. -/
def dget {α : Type} (l : List (String × α)) (k : String) : Option α :=
  match l with
  | [] => none
  | (k', v) :: rest => if k' = k then some v else dget rest k

/-- Python `d[k] = v` on an insertion-ordered dict: if the key is present
its entry is updated in place (keeping its position), otherwise the new
entry is appended at the end. -/
def dset {α : Type} (l : List (String × α)) (k : String) (v : α) : List (String × α) :=
  match l with
  | [] => [(k, v)]
  | (k', v') :: rest => if k' = k then (k, v) :: rest else (k', v') :: dset rest k v

/-- Python `del d[k]`: remove the entry with the given key. -/
def ddel {α : Type} (l : List (String × α)) (k : String) : List (String × α) :=
  l.filter (fun p => decide (p.1 ≠ k))

/-- InventoryManager.add_item.  Validates that `item` is a non-empty string
and `qty` a positive int; on failure prints an error and returns with no
state change, on success adds `qty` to the item's quantity (default 0),
appends a log entry and prints it. -/
def add_item (m : InventoryManager) (item qty : PyVal) : InventoryManager × List Msg :=
  match item with
  | .vstr s =>
    if s = "" then (m, [.errItemName item])
    else
      match qty with
      | .vint n =>
        if n ≤ 0 then (m, [.errQty qty])
        else
          let entry := "Added " ++ toString n ++ " of " ++ s
          ({ m with
              stock_data := dset m.stock_data s ((dget m.stock_data s).getD 0 + n),
              logs := m.logs ++ [entry] },
           [.logLine entry])
      | _ => (m, [.errQty qty])
  | _ => (m, [.errItemName item])

/-- InventoryManager.remove_item.  Validates item and qty as `add_item`
does, then checks the item is present and the stock sufficient; on any
failure prints an error and leaves the state unchanged.  On success it
subtracts `qty`, logs, and deletes the entry (with an info message) when
the remaining quantity is exactly 0. -/
def remove_item (m : InventoryManager) (item qty : PyVal) : InventoryManager × List Msg :=
  match item with
  | .vstr s =>
    if s = "" then (m, [.errItemName item])
    else
      match qty with
      | .vint n =>
        if n ≤ 0 then (m, [.errQty qty])
        else
          match dget m.stock_data s with
          | none => (m, [.errNotFound s])
          | some cur =>
            if cur < n then (m, [.errInsufficient s cur n])
            else
              let d1 := dset m.stock_data s (cur - n)
              let entry := "Removed " ++ toString n ++ " of " ++ s
              if dget d1 s = some 0 then
                ({ m with stock_data := ddel d1 s, logs := m.logs ++ [entry] },
                 [.logLine entry, .infoOutOfStock s])
              else
                ({ m with stock_data := d1, logs := m.logs ++ [entry] },
                 [.logLine entry])
      | _ => (m, [.errQty qty])
  | _ => (m, [.errItemName item])

/-- InventoryManager.get_qty: `self.stock_data.get(item, 0)`.  The manager
is returned unchanged to make explicit that the method does not mutate. -/
def get_qty (m : InventoryManager) (item : String) : InventoryManager × Int :=
  (m, (dget m.stock_data item).getD 0)

/-- InventoryManager.load_data.  Resolves the path (default_file when the
argument is None), then: a missing file yields an empty inventory with a
warning; a JSON decode error or an IOError prints an error and calls
`sys.exit(1)`; otherwise `stock_data` is replaced wholesale by the parsed
object. -/
def load_data (m : InventoryManager) (fs : FS) (file : Option String) :
    LoadResult × List Msg :=
  let f := file.getD m.default_file
  match dget fs f with
  | some (.object entries) => (.ok { m with stock_data := entries }, [.loadOk f])
  | none => (.ok { m with stock_data := [] }, [.warnFileNotFound f])
  | some .malformed => (.fatal 1, [.errDecode f])
  | some .unreadable => (.fatal 1, [.errLoadIo f])

/-- InventoryManager.save_data.  Resolves the path as `load_data` does and
writes the JSON serialization of `stock_data`, overwriting the file; an
IOError (oracle `ioFail`) is caught, reported, and the method returns
normally.  The in-memory state is never touched. -/
def save_data (m : InventoryManager) (fs : FS) (file : Option String) (ioFail : Bool) :
    (InventoryManager × FS) × List Msg :=
  let f := file.getD m.default_file
  if ioFail then ((m, fs), [.errSaveIo f])
  else ((m, dset fs f (.object m.stock_data)), [.saveOk f])

/-- InventoryManager.print_data: prints the report.  Read-only; the manager
is returned unchanged to make that explicit. -/
def print_data (m : InventoryManager) : InventoryManager × List Msg :=
  (m,
    [.reportHeader] ++
      (if m.stock_data = [] then [.reportEmpty]
       else m.stock_data.map (fun p => .reportLine p.1 p.2)) ++
    [.reportFooter])

/-- InventoryManager.check_low_items: the list comprehension
`[item for item, qty in self.stock_data.items() if qty < threshold]`.
Read-only; the manager is returned unchanged to make that explicit. -/
def check_low_items (m : InventoryManager) (threshold : Int) :
    InventoryManager × List String :=
  (m, (m.stock_data.filter (fun p => decide (p.2 < threshold))).map (fun p => p.1))

/-- The spec's inventory-map invariant: every key is a non-empty string and
every value present is an integer ≥ 1 (hence no entry has quantity 0). -/
def Invariant (l : List (String × Int)) : Prop :=
  ∀ p ∈ l, p.1 ≠ "" ∧ 1 ≤ p.2

instance (l : List (String × Int)) : Decidable (Invariant l) :=
  List.decidableBAll _ l

/-- The validation `add_item`/`remove_item` perform on the item argument:
it must be a `str` and non-empty. -/
def isValidItem : PyVal → Bool
  | .vstr s => decide (s ≠ "")
  | _ => false

/-- The validation `add_item`/`remove_item` perform on the quantity
argument: it must be an `int` and strictly positive. -/
def isValidQty : PyVal → Bool
  | .vint n => decide (0 < n)
  | _ => false

/-! ### Lemmas about the dict primitives -/

theorem dget_mem {α : Type} {l : List (String × α)} {k : String} {v : α}
    (h : dget l k = some v) : (k, v) ∈ l := by
  induction l with
  | nil => simp [dget] at h
  | cons p rest ih =>
    obtain ⟨k', v'⟩ := p
    simp only [dget] at h
    by_cases hk : k' = k
    · simp [hk] at h
      subst hk h
      exact List.mem_cons_self _ _
    · simp [hk] at h
      exact List.mem_cons_of_mem _ (ih h)

theorem mem_dget_of_nodup {α : Type} {l : List (String × α)} {k : String} {v : α}
    (hnd : (l.map Prod.fst).Nodup) (h : (k, v) ∈ l) : dget l k = some v := by
  induction l with
  | nil => simp at h
  | cons p rest ih =>
    obtain ⟨k', v'⟩ := p
    simp only [List.map_cons, List.nodup_cons] at hnd
    rcases List.mem_cons.mp h with h1 | h1
    · rw [Prod.mk.injEq] at h1
      obtain ⟨h1a, h1b⟩ := h1
      subst h1a
      subst h1b
      simp [dget]
    · have hk : k' ≠ k := by
        intro he
        subst he
        exact hnd.1 (List.mem_map.mpr ⟨(k', v), h1, rfl⟩)
      rw [dget, if_neg hk]
      exact ih hnd.2 h1

theorem dget_dset_self {α : Type} (l : List (String × α)) (k : String) (v : α) :
    dget (dset l k v) k = some v := by
  induction l with
  | nil => simp [dset, dget]
  | cons p rest ih =>
    obtain ⟨k', v'⟩ := p
    by_cases hk : k' = k
    · rw [dset, if_pos hk, dget, if_pos rfl]
    · rw [dset, if_neg hk, dget, if_neg hk]
      exact ih

theorem dget_dset_ne {α : Type} (l : List (String × α)) (k k' : String) (v : α)
    (hk : k' ≠ k) : dget (dset l k v) k' = dget l k' := by
  induction l with
  | nil =>
    simp [dset, dget, Ne.symm hk]
  | cons p rest ih =>
    obtain ⟨k₀, v₀⟩ := p
    by_cases h0 : k₀ = k
    · rw [dset, if_pos h0, dget, if_neg (Ne.symm hk), dget, if_neg]
      rw [h0]
      exact Ne.symm hk
    · rw [dset, if_neg h0, dget, dget]
      by_cases h1 : k₀ = k'
      · rw [if_pos h1, if_pos h1]
      · rw [if_neg h1, if_neg h1]
        exact ih

theorem mem_dset {α : Type} {l : List (String × α)} {k : String} {v : α} {p : String × α}
    (h : p ∈ dset l k v) : p = (k, v) ∨ p ∈ l := by
  induction l with
  | nil =>
    rw [dset] at h
    simp at h
    exact Or.inl h
  | cons q rest ih =>
    obtain ⟨k', v'⟩ := q
    by_cases hk : k' = k
    · rw [dset, if_pos hk] at h
      rcases List.mem_cons.mp h with h1 | h1
      · exact Or.inl h1
      · exact Or.inr (List.mem_cons_of_mem _ h1)
    · rw [dset, if_neg hk] at h
      rcases List.mem_cons.mp h with h1 | h1
      · exact Or.inr (h1 ▸ List.mem_cons_self _ _)
      · rcases ih h1 with h2 | h2
        · exact Or.inl h2
        · exact Or.inr (List.mem_cons_of_mem _ h2)

theorem dget_ddel_self {α : Type} (l : List (String × α)) (k : String) :
    dget (ddel l k) k = none := by
  induction l with
  | nil => simp [ddel, dget]
  | cons p rest ih =>
    obtain ⟨k', v'⟩ := p
    by_cases hk : k' = k
    · simpa [ddel, hk] using ih
    · simpa [ddel, dget, hk] using ih

theorem mem_ddel {α : Type} {l : List (String × α)} {k : String} {p : String × α}
    (h : p ∈ ddel l k) : p ∈ l :=
  List.mem_of_mem_filter h

theorem ne_of_mem_ddel {α : Type} {l : List (String × α)} {k : String} {p : String × α}
    (h : p ∈ ddel l k) : p.1 ≠ k := by
  rw [ddel, List.mem_filter] at h
  simpa using h.2

/-! ### Claim theorems -/

/-- C9: for every item name and every inventory state, `get_qty` returns
the item's current quantity when present and 0 when absent, never modifies
the inventory, and never fails (it is a total function). -/
theorem get_qty_correct (m : InventoryManager) (k : String) :
    (get_qty m k).1 = m ∧
    (∀ q, dget m.stock_data k = some q → (get_qty m k).2 = q) ∧
    (dget m.stock_data k = none → (get_qty m k).2 = 0) := by
  refine ⟨rfl, ?_, ?_⟩
  · intro q hq
    simp [get_qty, hq]
  · intro h
    simp [get_qty, h]

theorem get_qty_correct_witness :
    (get_qty ⟨[("apple", 7)], "inventory.json", []⟩ "apple").2 = 7 ∧
    (get_qty ⟨[("apple", 7)], "inventory.json", []⟩ "pear").2 = 0 :=
  ⟨(get_qty_correct ⟨[("apple", 7)], "inventory.json", []⟩ "apple").2.1 7 (by decide),
   (get_qty_correct ⟨[("apple", 7)], "inventory.json", []⟩ "pear").2.2 (by decide)⟩

/-- C10: when `save_data` hits an I/O failure while writing, it reports the
error and returns normally, leaving the in-memory manager (inventory map,
default file and log) exactly as it was. -/
theorem save_data_io_error_preserves_state (m : InventoryManager) (fs : FS)
    (file : Option String) :
    (save_data m fs file true).1.1 = m ∧
    (save_data m fs file true).2 = [Msg.errSaveIo (file.getD m.default_file)] :=
  ⟨rfl, rfl⟩

/-- C8: `load_data` on a nonexistent file sets the inventory to the empty
map, emits a warning, and returns normally (no process termination). -/
theorem load_data_missing_file (m : InventoryManager) (fs : FS) (file : Option String)
    (h : dget fs (file.getD m.default_file) = none) :
    load_data m fs file =
      (LoadResult.ok { m with stock_data := [] },
       [Msg.warnFileNotFound (file.getD m.default_file)]) := by
  simp [load_data, h]

theorem load_data_missing_file_witness :
    load_data ⟨[("a", 2)], "inventory.json", []⟩ [] none =
      (LoadResult.ok ⟨[], "inventory.json", []⟩,
       [Msg.warnFileNotFound "inventory.json"]) :=
  load_data_missing_file ⟨[("a", 2)], "inventory.json", []⟩ [] none rfl

/-- C7: `load_data` on an existing file that is malformed JSON, or whose
read fails with an IOError, reports the error and terminates the process
with the non-zero exit status 1. -/
theorem load_data_fatal_on_bad_file (m : InventoryManager) (fs : FS) (file : Option String)
    (h : dget fs (file.getD m.default_file) = some FileContent.malformed ∨
         dget fs (file.getD m.default_file) = some FileContent.unreadable) :
    (load_data m fs file).1 = LoadResult.fatal 1 ∧ (1 : Nat) ≠ 0 := by
  constructor
  · rcases h with h | h <;> simp [load_data, h]
  · decide

theorem load_data_fatal_on_bad_file_witness :
    (load_data ⟨[], "inventory.json", []⟩
        [("inventory.json", FileContent.malformed)] none).1 = LoadResult.fatal 1 :=
  (load_data_fatal_on_bad_file ⟨[], "inventory.json", []⟩
      [("inventory.json", FileContent.malformed)] none (Or.inl (by decide))).1

/-- C2: saving to a path (with the write succeeding) and then loading from
that same path yields a manager whose inventory map equals the one that was
saved — in fact the whole manager state is restored. -/
theorem save_then_load_roundtrip (m : InventoryManager) (fs : FS) (file : Option String) :
    (load_data (save_data m fs file false).1.1 (save_data m fs file false).1.2 file).1
      = LoadResult.ok m := by
  simp [save_data, load_data, dget_dset_self]

/-- C3: for a non-empty item name and a positive quantity, `add_item`
succeeds: the new map binds the item to its previous quantity (0 if
absent) plus `qty` and leaves every other key's binding unchanged;
`get_qty` afterwards exceeds `get_qty` before by exactly `qty`; and a log
entry is appended. -/
theorem add_item_valid (m : InventoryManager) (s : String) (n : Int)
    (hs : s ≠ "") (hn : 0 < n) :
    (∀ k, dget (add_item m (PyVal.vstr s) (PyVal.vint n)).1.stock_data k
        = if k = s then some ((dget m.stock_data s).getD 0 + n)
          else dget m.stock_data k) ∧
    (get_qty (add_item m (PyVal.vstr s) (PyVal.vint n)).1 s).2
        = (get_qty m s).2 + n ∧
    (add_item m (PyVal.vstr s) (PyVal.vint n)).1.logs
        = m.logs ++ ["Added " ++ toString n ++ " of " ++ s] := by
  have hn' : ¬ n ≤ 0 := not_le.mpr hn
  refine ⟨?_, ?_, ?_⟩
  · intro k
    by_cases hk : k = s
    · subst hk
      simp [add_item, hs, hn', dget_dset_self]
    · simp [add_item, hs, hn', hk, dget_dset_ne _ _ _ _ hk]
  · simp [add_item, get_qty, hs, hn', dget_dset_self]
  · simp [add_item, hs, hn']

theorem add_item_valid_witness :
    (get_qty (add_item ⟨[("apple", 2)], "inventory.json", []⟩
        (PyVal.vstr "apple") (PyVal.vint 3)).1 "apple").2
      = (get_qty ⟨[("apple", 2)], "inventory.json", []⟩ "apple").2 + 3 :=
  (add_item_valid ⟨[("apple", 2)], "inventory.json", []⟩ "apple" 3
      (by decide) (by decide)).2.1

/-- C4: invalid inputs (item not a non-empty string, or quantity not a
positive int) make both `add_item` and `remove_item` return with the
inventory unchanged and a diagnostic printed; additionally `remove_item`
with valid inputs rejects, unchanged and with a diagnostic, when the item
is absent or the current stock is below the requested quantity.  All these
paths return normally (the operations are total functions). -/
theorem invalid_inputs_rejected (m : InventoryManager) (item qty : PyVal) :
    (isValidItem item = false ∨ isValidQty qty = false →
      (add_item m item qty).1 = m ∧ (add_item m item qty).2 ≠ [] ∧
      (remove_item m item qty).1 = m ∧ (remove_item m item qty).2 ≠ []) ∧
    (∀ s n, item = PyVal.vstr s → qty = PyVal.vint n →
      isValidItem item = true → isValidQty qty = true →
      (dget m.stock_data s = none ∨ ∃ c, dget m.stock_data s = some c ∧ c < n) →
      (remove_item m item qty).1 = m ∧ (remove_item m item qty).2 ≠ []) := by
  constructor
  · intro h
    cases item with
    | vstr s =>
      by_cases hs : s = ""
      · subst hs
        simp [add_item, remove_item]
      · have hitem : isValidItem (PyVal.vstr s) = true := by simp [isValidItem, hs]
        have hq : isValidQty qty = false := by
          rcases h with h | h
          · rw [hitem] at h
            cases h
          · exact h
        cases qty with
        | vint n =>
          have hn : n ≤ 0 := by
            simp [isValidQty] at hq
            exact hq
          simp [add_item, remove_item, hs, hn]
        | vstr s2 => simp [add_item, remove_item, hs]
        | vother => simp [add_item, remove_item, hs]
    | vint n => simp [add_item, remove_item]
    | vother => simp [add_item, remove_item]
  · intro s n hrs hrq hvi hvq hcond
    subst hrs
    subst hrq
    have hs : s ≠ "" := by simpa [isValidItem] using hvi
    have hn : 0 < n := by simpa [isValidQty] using hvq
    rcases hcond with hnone | ⟨c, hc, hlt⟩
    · constructor <;> simp [remove_item, hs, not_le.mpr hn, hnone]
    · constructor <;> simp [remove_item, hs, not_le.mpr hn, hc, hlt]

theorem invalid_inputs_rejected_witness :
    (add_item ⟨[("apple", 10)], "inventory.json", []⟩
        PyVal.vother (PyVal.vint 5)).1 = ⟨[("apple", 10)], "inventory.json", []⟩ ∧
    (remove_item ⟨[("apple", 10)], "inventory.json", []⟩
        (PyVal.vstr "apple") (PyVal.vint 11)).1
      = ⟨[("apple", 10)], "inventory.json", []⟩ :=
  ⟨((invalid_inputs_rejected ⟨[("apple", 10)], "inventory.json", []⟩
        PyVal.vother (PyVal.vint 5)).1 (Or.inl rfl)).1,
   ((invalid_inputs_rejected ⟨[("apple", 10)], "inventory.json", []⟩
        (PyVal.vstr "apple") (PyVal.vint 11)).2 "apple" 11 rfl rfl
      (by decide) (by decide) (Or.inr ⟨10, by decide, by decide⟩)).1⟩

/-- C5: removing an item with a quantity equal to its current stock (in a
state satisfying the inventory invariant) deletes the entry from the map
entirely, and `get_qty` on that item afterwards returns 0. -/
theorem remove_exact_stock_deletes (m : InventoryManager) (s : String) (q : Int)
    (hinv : Invariant m.stock_data) (hq : dget m.stock_data s = some q) :
    dget (remove_item m (PyVal.vstr s) (PyVal.vint q)).1.stock_data s = none ∧
    (get_qty (remove_item m (PyVal.vstr s) (PyVal.vint q)).1 s).2 = 0 := by
  obtain ⟨hs, hq1⟩ := hinv _ (dget_mem hq)
  have hn : ¬ q ≤ 0 := by omega
  have hres : (remove_item m (PyVal.vstr s) (PyVal.vint q)).1.stock_data
      = ddel (dset m.stock_data s (q - q)) s := by
    simp [remove_item, hs, hn, hq, dget_dset_self]
  refine ⟨?_, ?_⟩
  · rw [hres, dget_ddel_self]
  · simp [get_qty, hres, dget_ddel_self]

theorem remove_exact_stock_deletes_witness :
    dget (remove_item ⟨[("banana", 15)], "inventory.json", []⟩
        (PyVal.vstr "banana") (PyVal.vint 15)).1.stock_data "banana" = none :=
  (remove_exact_stock_deletes ⟨[("banana", 15)], "inventory.json", []⟩ "banana" 15
      (by decide) (by decide)).1

/-- C6: `check_low_items` does not modify the manager, and its result
contains exactly the items whose quantity is strictly below the threshold
(items at exactly the threshold excluded), listed in the insertion order of
the underlying map (a sublist of the map's key sequence). -/
theorem check_low_items_correct (m : InventoryManager) (t : Int)
    (hnd : (m.stock_data.map Prod.fst).Nodup) :
    (check_low_items m t).1 = m ∧
    (∀ k, k ∈ (check_low_items m t).2 ↔
      ∃ q, dget m.stock_data k = some q ∧ q < t) ∧
    List.Sublist (check_low_items m t).2 (m.stock_data.map Prod.fst) := by
  refine ⟨rfl, ?_, ?_⟩
  · intro k
    constructor
    · intro hk
      simp only [check_low_items, List.mem_map] at hk
      obtain ⟨p, hp, hpk⟩ := hk
      rw [List.mem_filter] at hp
      refine ⟨p.2, ?_, by simpa using hp.2⟩
      have : (k, p.2) ∈ m.stock_data := by
        rw [← hpk]
        simpa using hp.1
      exact mem_dget_of_nodup hnd this
    · rintro ⟨q, hq, hlt⟩
      have hmem := dget_mem hq
      simp only [check_low_items, List.mem_map]
      exact ⟨(k, q), List.mem_filter.mpr ⟨hmem, by simpa using hlt⟩, rfl⟩
  · exact List.Sublist.map _ (List.filter_sublist _)

theorem check_low_items_correct_witness :
    "grape" ∈ (check_low_items ⟨[("apple", 7), ("grape", 3)], "inventory.json", []⟩ 5).2 :=
  ((check_low_items_correct ⟨[("apple", 7), ("grape", 3)], "inventory.json", []⟩ 5
      (by decide)).2.1 "grape").mpr ⟨3, by decide, by decide⟩

/-- C1 (amended): every operation except `load_data` preserves the
inventory invariant unconditionally (for the read-only operations the
manager is returned unchanged); `load_data` establishes the invariant
whenever it returns normally and the loaded document — if the file existed
— itself satisfies the invariant (a missing file yields the empty map,
which satisfies it trivially).  `load_data` on an existing file performs no
validation, so the unconditional statement fails; see the counterexample. -/
theorem invariant_preservation (m : InventoryManager) (hinv : Invariant m.stock_data) :
    (∀ item qty, Invariant (add_item m item qty).1.stock_data) ∧
    (∀ item qty, Invariant (remove_item m item qty).1.stock_data) ∧
    (∀ k, (get_qty m k).1 = m) ∧
    (∀ fs file io, (save_data m fs file io).1.1 = m) ∧
    ((print_data m).1 = m) ∧
    (∀ t, (check_low_items m t).1 = m) ∧
    (∀ fs file m', (load_data m fs file).1 = LoadResult.ok m' →
      (∀ e, dget fs (file.getD m.default_file) = some (FileContent.object e) →
        Invariant e) →
      Invariant m'.stock_data) := by
  refine ⟨?_, ?_, fun _ => rfl, ?_, rfl, fun _ => rfl, ?_⟩
  · -- add_item
    intro item qty
    cases item with
    | vstr s =>
      by_cases hs : s = ""
      · simpa [add_item, hs] using hinv
      · cases qty with
        | vint n =>
          by_cases hn : n ≤ 0
          · simpa [add_item, hs, hn] using hinv
          · intro p hp
            simp only [add_item, if_neg hs, if_neg hn] at hp
            rcases mem_dset hp with h1 | h1
            · subst h1
              refine ⟨hs, ?_⟩
              have hpos : 0 < n := not_le.mp hn
              have hprev : 0 ≤ (dget m.stock_data s).getD 0 := by
                cases hd : dget m.stock_data s with
                | none => simp
                | some v =>
                  have h2 := (hinv _ (dget_mem hd)).2
                  simp only [Option.getD_some]
                  omega
              simp only
              omega
            · exact hinv _ h1
        | vstr s2 => simpa [add_item, hs] using hinv
        | vother => simpa [add_item, hs] using hinv
    | vint n => simpa [add_item] using hinv
    | vother => simpa [add_item] using hinv
  · -- remove_item
    intro item qty
    cases item with
    | vstr s =>
      by_cases hs : s = ""
      · simpa [remove_item, hs] using hinv
      · cases qty with
        | vint n =>
          by_cases hn : n ≤ 0
          · simpa [remove_item, hs, hn] using hinv
          · cases hd : dget m.stock_data s with
            | none => simpa [remove_item, hs, hn, hd] using hinv
            | some cur =>
              by_cases hlt : cur < n
              · simpa [remove_item, hs, hn, hd, hlt] using hinv
              · by_cases hz : dget (dset m.stock_data s (cur - n)) s = some 0
                · intro p hp
                  simp only [remove_item, if_neg hs, if_neg hn, hd, if_neg hlt,
                    if_pos hz] at hp
                  rcases mem_dset (mem_ddel hp) with h1 | h1
                  · exact absurd (by rw [h1]) (ne_of_mem_ddel hp)
                  · exact hinv _ h1
                · intro p hp
                  simp only [remove_item, if_neg hs, if_neg hn, hd, if_neg hlt,
                    if_neg hz] at hp
                  rcases mem_dset hp with h1 | h1
                  · subst h1
                    refine ⟨hs, ?_⟩
                    have h0 : dget (dset m.stock_data s (cur - n)) s = some (cur - n) :=
                      dget_dset_self _ _ _
                    have hne : cur - n ≠ 0 := by
                      intro he
                      exact hz (h0.trans (by rw [he]))
                    simp only
                    omega
                  · exact hinv _ h1
        | vstr s2 => simpa [remove_item, hs] using hinv
        | vother => simpa [remove_item, hs] using hinv
    | vint n => simpa [remove_item] using hinv
    | vother => simpa [remove_item] using hinv
  · -- save_data
    intro fs file io
    cases io <;> rfl
  · -- load_data
    intro fs file m' hok hfile
    cases hd : dget fs (file.getD m.default_file) with
    | none =>
      simp only [load_data, hd] at hok
      injection hok with h
      rw [← h]
      intro p hp
      simp at hp
    | some fc =>
      cases fc with
      | object e =>
        simp only [load_data, hd] at hok
        injection hok with h
        rw [← h]
        simpa using hfile e hd
      | malformed => simp [load_data, hd] at hok
      | unreadable => simp [load_data, hd] at hok

theorem invariant_preservation_witness :
    Invariant (add_item ⟨[("apple", 2)], "inventory.json", []⟩
        (PyVal.vstr "pear") (PyVal.vint 4)).1.stock_data :=
  (invariant_preservation ⟨[("apple", 2)], "inventory.json", []⟩ (by decide)).1
    (PyVal.vstr "pear") (PyVal.vint 4)

/-- C1 counterexample: the invariant held before (empty inventory), but
`load_data` on an existing, well-formed JSON file `{"widget": 0}` replaces
the inventory with a map containing an entry of quantity 0, so the
invariant does not hold after the operation — the unconditional claim is
false for `load_data`, which performs no validation of the loaded data. -/
theorem load_data_breaks_invariant :
    Invariant (⟨[], "inventory.json", []⟩ : InventoryManager).stock_data ∧
    (load_data ⟨[], "inventory.json", []⟩
        [("inventory.json", FileContent.object [("widget", 0)])] none).1
      = LoadResult.ok ⟨[("widget", 0)], "inventory.json", []⟩ ∧
    ¬ Invariant [("widget", 0)] := by
  refine ⟨by decide, by decide, by decide⟩

end InventorySystem
